import Mathlib

/-!
Shallow embedding of `scrape_boarddoc_meetings.py` (BoardDocs scraper).

The network boundary is abstracted: the JSON feed a committee's
meeting-list request would return, and the parsed HTML page an agenda
request would return, are passed as values/functions.  Everything after
that boundary is translated from the Python source:

* `get_boarddoc_meetings`  — the Meeting-List Fetcher (lines 15-62);
* `process_boarddoc_meeting` — the Agenda Extractor (lines 65-134);
* `process_boarddoc_district` — the District Orchestrator (lines 137-179).

Python exceptions are modelled with `Except String`, carrying the name of
the exception class the interpreter would raise.
-/

set_option autoImplicit false

namespace Boarddocs

/-! ### A model of parsed HTML (what BeautifulSoup hands back)

An element node carries its tag, the value of its `class` attribute
(`none` when the attribute is absent; BeautifulSoup exposes a present
`class` as a list of class names), and its remaining attributes as an
association list. -/

inductive Html where
  | text (s : String)
  | elem (tag : String) (classes : Option (List String))
         (attrs : List (String × String)) (children : List Html)

namespace Html

mutual
/-- `Tag.get_text()` / `Tag.text`: concatenation of every descendant
text node, in document order, with no separator. -/
def getText : Html → String
  | .text s => s
  | .elem _ _ _ ch => getTextList ch

/-- `getText` over a list of sibling nodes. -/
def getTextList : List Html → String
  | [] => ""
  | c :: cs => getText c ++ getTextList cs
end

mutual
/-- Every node of the tree (the node itself and all its descendants) in
preorder document order — the order in which BeautifulSoup's `find` /
`find_all` consider candidates. -/
def allNodes : Html → List Html
  | .text s => [.text s]
  | .elem t c a ch => .elem t c a ch :: allNodesList ch

/-- `allNodes` over a list of sibling nodes. -/
def allNodesList : List Html → List Html
  | [] => []
  | c :: cs => allNodes c ++ allNodesList cs
end

mutual
/-- Preorder traversal pairing every node with its chain of ancestors,
nearest ancestor first.  `find_parent` searches that chain. -/
def nodesWithAnc (anc : List Html) : Html → List (List Html × Html)
  | .text s => [(anc, .text s)]
  | .elem t c a ch =>
      (anc, .elem t c a ch) :: nodesWithAncList (.elem t c a ch :: anc) ch

/-- `nodesWithAnc` over a list of sibling nodes. -/
def nodesWithAncList (anc : List Html) : List Html → List (List Html × Html)
  | [] => []
  | c :: cs => nodesWithAnc anc c ++ nodesWithAncList anc cs
end

/-- `Tag.string` (bs4): if the tag has exactly one child and it is a text
node, that text; if it has exactly one child that is itself a tag,
recurse; otherwise Python `None`. -/
def dotString : Html → Option String
  | .text s => some s
  | .elem _ _ _ [c] => dotString c
  | .elem _ _ _ _ => none

/-- `tag.has_attr(k)` for a non-`class` attribute: lookup in the
attribute association list. -/
def getAttr (k : String) : Html → Option String
  | .text _ => none
  | .elem _ _ attrs _ => (attrs.find? (fun p => p.1 = k)).map Prod.snd

/-- The element's tag name (`""` for a text node, which never matches a
tag filter). -/
def tagOf : Html → String
  | .text _ => ""
  | .elem t _ _ _ => t

/-- Whether the node is a tag (bs4 `find`/`find_all` and `findChild`
only ever return tags, never text nodes). -/
def isTag : Html → Bool
  | .text _ => false
  | .elem _ _ _ _ => true

/-- `tag.has_attr("class")`. -/
def hasClassAttr : Html → Bool
  | .text _ => false
  | .elem _ c _ _ => c.isSome

/-- `tag.attrs["class"]` — the list of class names (`[]` when the
attribute is absent; only read behind a `has_attr` test in the source). -/
def classesOf : Html → List String
  | .text _ => []
  | .elem _ c _ _ => c.getD []

/-- bs4 class filtering: `find_all("div", \x7b"class": c\x7d)` keeps
elements one of whose class names equals `c`. -/
def hasClass (c : String) (h : Html) : Bool := c ∈ classesOf h

/-- Matches `find(tag, \x7b"class": c\x7d)`'s predicate. -/
def isTagWithClass (t c : String) (h : Html) : Bool := tagOf h = t && hasClass c h

/-- `soup.find(tag, \x7b"class": c\x7d)`: the first matching element in
preorder, or Python `None`. -/
def findTagClass (t c : String) (soup : Html) : Option Html :=
  (allNodes soup).find? (isTagWithClass t c)

/-- `tag.findChild()` / `tag.findChild("a")` — despite the name, bs4's
`findChild` is `find`: the first *descendant* tag (the node itself
excluded) satisfying the filter. -/
def findDescendant (p : Html → Bool) : Html → Option Html
  | .text _ => none
  | .elem _ _ _ ch => (allNodesList ch).find? p

end Html

/-! ### String helpers: Python `int()` and the `re` patterns used -/

/-- Digit-string to number (`none` on empty or non-digit input). -/
def strToNat? (s : String) : Option Nat :=
  if s.data ≠ [] && s.data.all Char.isDigit then
    some (s.data.foldl (fun n c => n * 10 + (c.toNat - 48)) 0)
  else none

/-- Python `int(s)` on a string: an optional sign followed by digits
(the date strings handled here are plain 8-digit strings); `none` models
the `ValueError` raised otherwise. -/
def strToInt? (s : String) : Option Int :=
  match s.data with
  | '-' :: rest => (strToNat? (String.mk rest)).map (fun n => -(n : Int))
  | '+' :: rest => (strToNat? (String.mk rest)).map (fun n => (n : Int))
  | _ => (strToNat? s).map (fun n => (n : Int))

/-- Scanner behind `re.search("(?<=Subject\n).+", s)`.  A match starts
right after an occurrence of `"Subject\n"` and takes the maximal nonempty
run of non-newline characters; occurrences are tried left to right. -/
def subjectTail : List Char → Option (List Char)
  | [] => none
  | c :: cs =>
      if (c :: cs).take 8 = "Subject\n".data then
        let line := ((c :: cs).drop 8).takeWhile (fun ch => ch ≠ '\n')
        if line = [] then subjectTail cs else some line
      else subjectTail cs

/-- `re.search("(?<=Subject\n).+", s)`, returning the matched text. -/
def subjectAfter? (s : String) : Option String :=
  (subjectTail s.data).map String.mk

/-- Substring test behind `re.compile("legacy-content")` used as an
`href` filter (`re.search` semantics: the pattern occurs anywhere). -/
def hasSubstr (pat : List Char) : List Char → Bool
  | [] => pat.isEmpty
  | c :: cs => ((c :: cs).take pat.length = pat : Bool) || hasSubstr pat cs

/-- `re.compile("legacy-content")` matching an `href` value. -/
def legacyContentHref (href : String) : Bool :=
  hasSubstr "legacy-content".data href.data

/-! ### Meeting-List Fetcher (`get_boarddoc_meetings`, lines 15-62)

The JSON feed the meetings endpoint returns is a list of objects; only
the keys the code projects out are modelled, each optional because the
code reads them with `meeting.get(key, None)`. -/

/-- One record of the remote JSON meetings feed. -/
structure JsonMeeting where
  unique : Option String
  numberdate : Option String
  name : Option String
  deriving DecidableEq, Repr

/-- One row of the `meetings` DataFrame. -/
structure MeetingRow where
  meeting_id : Option String
  committee_id : String
  numberdate : Option String
  name : Option String
  deriving DecidableEq, Repr

/-- The dict built for one feed record (lines 42-47). -/
def projectMeeting (committee_id : String) (m : JsonMeeting) : MeetingRow :=
  { meeting_id := m.unique
    committee_id := committee_id
    numberdate := m.numberdate
    name := m.name }

/-- The DataFrame after `dropna(subset=["meeting_id"])` (lines 50-51):
projection of the feed with the absent-identifier rows removed. -/
def baseRows (committee_id : String) (feed : List JsonMeeting) : List MeetingRow :=
  (feed.map (projectMeeting committee_id)).filter (fun r => r.meeting_id.isSome)

/-- `row["numberdate"].astype(int)` for one row: parse the date string;
`none` models the `ValueError`/`TypeError` raised on a malformed or
absent value. -/
def rowDate? (r : MeetingRow) : Option Int := r.numberdate.bind strToInt?

/-- One date-filter line (e.g. line 54): `astype(int)` must succeed on
every row of the column, then the boolean mask keeps the rows whose date
satisfies `p`. -/
def filterRows (p : Int → Bool) (rows : List MeetingRow) :
    Except String (List MeetingRow) :=
  if rows.all (fun r => (rowDate? r).isSome) then
    .ok (rows.filter (fun r =>
      match rowDate? r with
      | some d => p d
      | none => false))
  else .error "ValueError"

/-- `get_boarddoc_meetings(site, committee_id, date)` after the network
and JSON-parse boundary: `feed` is the decoded response body.  The
`date` argument is `none` when no tuple is passed; each component of a
passed tuple is `none` when it is not a string (the documented usage
passes `None`).  Error strings name the Python exception:
`"KeyError"` — `pd.DataFrame([])` from an empty feed has no columns, so
`dropna(subset=["meeting_id"])` raises; `"ValueError"` — `int()` /
`astype(int)` on a malformed (or, raising `TypeError`, absent) date. -/
def get_boarddoc_meetings (committee_id : String) (feed : List JsonMeeting)
    (date : Option (Option String × Option String)) :
    Except String (List MeetingRow) :=
  if feed.isEmpty then .error "KeyError"
  else
    let rows := baseRows committee_id feed
    match date with
    | none => .ok rows
    | some (none, none) => .ok rows
    | some (none, some t) =>
        match strToInt? t with
        | some b => filterRows (fun d => d ≤ b) rows
        | none => .error "ValueError"
    | some (some f, none) =>
        match strToInt? f with
        | some a => filterRows (fun d => a ≤ d) rows
        | none => .error "ValueError"
    | some (some f, some t) =>
        match strToInt? f, strToInt? t with
        | some a, some b => filterRows (fun d => a ≤ d && d ≤ b) rows
        | _, _ => .error "ValueError"

/-! ### Agenda Extractor (`process_boarddoc_meeting`, lines 65-134) -/

/-- Attribute access on a Python value that may be `None`: `none` turns
into the named exception (`AttributeError` for `.string` / `.text` /
`.has_attr` on `None`, `TypeError` for `re.search(...)[0]` on `None`). -/
def fromOption {α : Type} (exc : String) : Option α → Except String α
  | some a => .ok a
  | none => .error exc

/-- The dict `process_boarddoc_meeting` returns.  `name` and `date` hold
the raw `.string` values, which are `None` when the found element does
not have a single text child. -/
structure AgendaData where
  meeting_id : String
  name : Option String
  date : Option String
  description : String
  items : List String
  full_text : String
  files : List (String × String × String)
  deriving DecidableEq, Repr

/-- Models the Python test `type(x) is str` applied to the value of
bs4's `.string` (line 96).  That value is either `None` or a
`NavigableString`; `NavigableString` is a proper *subclass* of `str`,
so the exact-type test is false for both — the test never succeeds. -/
def dotStringTypeIsStr (_ : Option String) : Bool := false

/-- One iteration of the agenda-items loop (lines 103-110).  Note the
`elif`: an element carrying an `aria-level` attribute never reaches the
`agendaorder` branch.  The membership test is against the whole
accumulated list.  `re.search(...)[0]` with no match raises `TypeError`. -/
def itemStep (acc : List String) (div : Html) : Except String (List String) :=
  if (Html.getAttr "aria-level" div).isSome then
    if Html.getAttr "aria-level" div = some "1" then
      if Html.getText div ∈ acc then .ok acc else .ok (acc ++ [Html.getText div])
    else .ok acc
  else if Html.hasClassAttr div then
    if "agendaorder" ∈ Html.classesOf div then
      (fromOption "TypeError" (subjectAfter? (Html.getText div))).map
        (fun s => acc ++ [s])
    else .ok acc
  else .ok acc

/-- `div.find_parent("div", \x7b"class": "agendaorder"\x7d)` given the
node's ancestor chain (nearest first). -/
def agendaorderParent (anc : List Html) : Option Html :=
  anc.find? (Html.isTagWithClass "div" "agendaorder")

/-- One iteration of the `public-file` pass (lines 114-122): the first
descendant `<a>`, guarded by `is not None` and `has_attr("href")`; the
item label comes from the `agendaorder` ancestor's text (`None` ancestor
or failed search is fatal). -/
def publicFileStep (acc : List (String × String × String))
    (entry : List Html × Html) : Except String (List (String × String × String)) :=
  match Html.findDescendant (fun n => Html.tagOf n = "a") entry.2 with
  | none => .ok acc
  | some file =>
      if (Html.getAttr "href" file).isSome then do
        let parent ← fromOption "AttributeError" (agendaorderParent entry.1)
        let item ← fromOption "TypeError" (subjectAfter? (Html.getText parent))
        .ok (acc ++ [(item, Html.getText file, (Html.getAttr "href" file).getD "")])
      else .ok acc

/-- One iteration of the legacy-content pass (lines 123-132): label from
the `agendaorder` ancestor, then `findChild()` — the first descendant
tag; `None` makes the following `has_attr` call raise `AttributeError`.
The display name is the child's `alt` value, else `""`. -/
def legacyStep (acc : List (String × String × String))
    (entry : List Html × Html) : Except String (List (String × String × String)) := do
  let parent ← fromOption "AttributeError" (agendaorderParent entry.1)
  let item ← fromOption "TypeError" (subjectAfter? (Html.getText parent))
  let file ← fromOption "AttributeError" (Html.findDescendant Html.isTag entry.2)
  let filename := (Html.getAttr "alt" file).getD ""
  .ok (acc ++ [(item, filename, (Html.getAttr "href" entry.2).getD "")])

/-- `soup.find_all("div")` — every `div` element in document order. -/
def allDivs (soup : Html) : List Html :=
  (Html.allNodes soup).filter (fun n => Html.tagOf n = "div")

/-- The agenda-items computation of lines 102-111. -/
def itemsOf (soup : Html) : Except String (List String) :=
  (allDivs soup).foldlM itemStep []

/-- `soup.find_all("div", \x7b"class": "public-file"\x7d)` with each
element's ancestor chain. -/
def publicFileDivs (soup : Html) : List (List Html × Html) :=
  (Html.nodesWithAnc [] soup).filter
    (fun e => Html.isTagWithClass "div" "public-file" e.2)

/-- `soup.find_all("a", href=re.compile("legacy-content"))` with each
element's ancestor chain: anchors that have an `href` whose value the
pattern matches. -/
def legacyAnchors (soup : Html) : List (List Html × Html) :=
  (Html.nodesWithAnc [] soup).filter
    (fun e => Html.tagOf e.2 = "a" &&
      match Html.getAttr "href" e.2 with
      | some href => legacyContentHref href
      | none => false)

/-- The files computation of lines 113-132: the `public-file` pass then
the legacy-content pass, appending to the same list. -/
def filesOf (soup : Html) : Except String (List (String × String × String)) := do
  let files ← (publicFileDivs soup).foldlM publicFileStep []
  (legacyAnchors soup).foldlM legacyStep files

/-- `process_boarddoc_meeting(site, committee_id, meeting_id)` after the
network and HTML-parse boundary: `soup` is the parsed response.
`soup.find(...)` returning `None` makes the following `.string` access
raise `AttributeError`; the description `if`/`else` of lines 96-101
stores the `.string` value when its exact type is `str` (which a
`NavigableString` never is) and `""` otherwise. -/
def process_boarddoc_meeting (meeting_id : String) (soup : Html) :
    Except String AgendaData := do
  let nameEl ← fromOption "AttributeError"
    (Html.findTagClass "div" "print-meeting-name" soup)
  let dateEl ← fromOption "AttributeError"
    (Html.findTagClass "div" "print-meeting-date" soup)
  let descEl ← fromOption "AttributeError"
    (Html.findTagClass "div" "print-meeting-description" soup)
  let description :=
    if dotStringTypeIsStr (Html.dotString descEl) then
      (Html.dotString descEl).getD ""  -- unreachable: the exact-type test never holds
    else ""
  let items ← itemsOf soup
  let files ← filesOf soup
  .ok { meeting_id := meeting_id
        name := Html.dotString nameEl
        date := Html.dotString dateEl
        description := description
        items := items
        full_text := Html.getText soup
        files := files }

/-! ### District Orchestrator (`process_boarddoc_district`, lines 137-179)

The network boundary is a pair of functions: `feeds c` is the JSON feed
the meetings endpoint returns for committee `c`, and `pages c m` is the
parsed HTML the print-agenda endpoint returns for committee `c` and
meeting `m`. -/

/-- `drop_duplicates(subset=["meeting_id"])` keeping the first
occurrence of every identifier; `seen` holds the identifiers already
kept. -/
def dropDupsAux (seen : List (Option String)) :
    List MeetingRow → List MeetingRow
  | [] => []
  | r :: rs =>
      if r.meeting_id ∈ seen then dropDupsAux seen rs
      else r :: dropDupsAux (r.meeting_id :: seen) rs

/-- `meetings.drop_duplicates(subset=["meeting_id"], inplace=True)`
(line 170); `reset_index(drop=True)` (line 171) is the identity on the
list model. -/
def drop_duplicates (rows : List MeetingRow) : List MeetingRow :=
  dropDupsAux [] rows

/-- Lines 160-169: the merged meeting list before deduplication.  One
committee calls the fetcher once; several concatenate the per-committee
lists in committee order (starting from an empty frame); an empty
committee list leaves the local variable `meetings` unassigned, so line
170 raises a `NameError` (`UnboundLocalError`). -/
def districtMeetings (feeds : String → List JsonMeeting)
    (committee_ids : List String)
    (date : Option (Option String × Option String)) :
    Except String (List MeetingRow) :=
  match committee_ids with
  | [] => .error "NameError"
  | [c] => get_boarddoc_meetings c (feeds c) date
  | cs =>
      (cs.mapM (fun c => get_boarddoc_meetings c (feeds c) date)).map List.flatten

/-- The Agenda Extractor call of lines 174-177 for one row: the stored
(present) identifier and the page for the row's committee. -/
def processCall (pages : String → String → Html) (r : MeetingRow) :
    Except String AgendaData :=
  process_boarddoc_meeting (r.meeting_id.getD "")
    (pages r.committee_id (r.meeting_id.getD ""))

/-- The loop of lines 172-178: one Agenda Extractor call per remaining
row, in order, appending to `agendas`; the first failure propagates. -/
def agendasLoop (pages : String → String → Html) :
    List MeetingRow → Except String (List AgendaData)
  | [] => .ok []
  | r :: rs => do
      let a ← processCall pages r
      let rest ← agendasLoop pages rs
      .ok (a :: rest)

/-- `process_boarddoc_district(site, committee_ids, date)` after the
network boundary. -/
def process_boarddoc_district (feeds : String → List JsonMeeting)
    (pages : String → String → Html) (committee_ids : List String)
    (date : Option (Option String × Option String)) :
    Except String (List MeetingRow × List AgendaData) := do
  let merged ← districtMeetings feeds committee_ids date
  let meetings := drop_duplicates merged
  let agendas ← agendasLoop pages meetings
  .ok (meetings, agendas)

/-! ### Document shapes and concrete fixtures used by the theorems -/

/-- A page: a non-`div` root wrapping a list of sibling nodes. -/
def docOf (body : List Html) : Html := .elem "html" none [] body

/-- A top-level agenda heading: a `div` with `aria-level="1"` holding
one text node. -/
def levelOneDiv (t : String) : Html :=
  .elem "div" none [("aria-level", "1")] [.text t]

/-- An agenda-item section: a `div` of class `agendaorder` holding one
text node. -/
def orderingDiv (t : String) : Html :=
  .elem "div" (some ["agendaorder"]) [] [.text t]

/-- The three single-purpose header elements every well-formed agenda
page carries. -/
def nameDiv : Html := .elem "div" (some ["print-meeting-name"]) [] [.text "Mtg"]

def dateDiv : Html := .elem "div" (some ["print-meeting-date"]) [] [.text "Jan 1"]

def descDiv (t : String) : Html :=
  .elem "div" (some ["print-meeting-description"]) [] [.text t]

/-- An `<img>` child carrying an `alt` attribute. -/
def imgAlt (alt : String) : Html := .elem "img" none [("alt", alt)] []

/-- An `<img>` child with no attributes at all. -/
def imgPlain : Html := .elem "img" none [] []

/-- A hyperlink with an `href` and the given children. -/
def anchorOf (href : String) (ch : List Html) : Html :=
  .elem "a" none [("href", href)] ch

/-- An `agendaorder` section holding a subject text and one hyperlink. -/
def orderWrap (subjText : String) (anchor : Html) : Html :=
  .elem "div" (some ["agendaorder"]) [] [.text subjText, anchor]

/-- An agenda page whose body is one `agendaorder` section holding a
subject text and one hyperlink. -/
def fileDoc (subjText : String) (anchor : Html) : Html :=
  docOf [nameDiv, dateDiv, descDiv "hello", orderWrap subjText anchor]

/-- A minimal agenda page with only the three header elements. -/
def plainPage : Html := docOf [nameDiv, dateDiv, descDiv "hello"]

/-- The agenda record `process_boarddoc_meeting` extracts from
`plainPage` for meeting `m`. -/
def plainAgenda (m : String) : AgendaData :=
  { meeting_id := m
    name := some "Mtg"
    date := some "Jan 1"
    description := ""
    items := []
    full_text := "MtgJan 1hello"
    files := [] }

/-- Committee A's feed in the end-to-end scenario of the spec. -/
def feedA : List JsonMeeting := [⟨some "1", some "20240101", some "m1"⟩]

/-- Committee B's feed in the end-to-end scenario of the spec. -/
def feedB : List JsonMeeting :=
  [⟨some "1", some "20240101", some "m1"⟩,
   ⟨some "2", some "20240201", some "m2"⟩]

/-- The two-committee site of the end-to-end scenario. -/
def feedsAB : String → List JsonMeeting
  | "A" => feedA
  | "B" => feedB
  | _ => []

/-- The row committee A's fetch produces for meeting 1. -/
def rowA1 : MeetingRow :=
  { meeting_id := some "1", committee_id := "A"
    numberdate := some "20240101", name := some "m1" }

/-- The row committee B's fetch produces for meeting 1. -/
def rowB1 : MeetingRow :=
  { meeting_id := some "1", committee_id := "B"
    numberdate := some "20240101", name := some "m1" }

/-- The row committee B's fetch produces for meeting 2. -/
def rowB2 : MeetingRow :=
  { meeting_id := some "2", committee_id := "B"
    numberdate := some "20240201", name := some "m2" }

/-- A site whose every agenda page is `plainPage`. -/
def pagesPlain : String → String → Html := fun _ _ => plainPage

/-- A site where meeting 2's agenda page lacks the meeting-name element
(so the Agenda Extractor raises), and every other page is fine. -/
def pagesBad2 : String → String → Html := fun _ m =>
  if m = "2" then docOf [] else plainPage

/-! ### Lemmas about the Meeting-List Fetcher -/

theorem filterRows_ok_iff {p : Int → Bool} {rows out : List MeetingRow}
    (h : filterRows p rows = .ok out) :
    ∀ r, r ∈ out ↔ r ∈ rows ∧ ∃ d, rowDate? r = some d ∧ p d = true := by
  unfold filterRows at h
  split at h
  · cases h
    intro r
    simp only [List.mem_filter]
    constructor
    · rintro ⟨hr, hp⟩
      refine ⟨hr, ?_⟩
      cases hd : rowDate? r with
      | none => rw [hd] at hp; cases hp
      | some d => rw [hd] at hp; exact ⟨d, rfl, hp⟩
    · rintro ⟨hr, d, hd, hp⟩
      exact ⟨hr, by rw [hd]; exact hp⟩
  · cases h

theorem filterRows_ok_sublist {p : Int → Bool} {rows out : List MeetingRow}
    (h : filterRows p rows = .ok out) : List.Sublist out rows := by
  unfold filterRows at h
  split at h
  · cases h; exact List.filter_sublist rows
  · cases h

theorem get_ok_isEmpty_false {cid : String} {feed : List JsonMeeting}
    {date : Option (Option String × Option String)} {out : List MeetingRow}
    (h : get_boarddoc_meetings cid feed date = .ok out) :
    feed.isEmpty = false := by
  cases hE : feed.isEmpty
  · rfl
  · simp [get_boarddoc_meetings, hE] at h

theorem get_none_eq (cid : String) (feed : List JsonMeeting)
    (hne : feed.isEmpty = false) :
    get_boarddoc_meetings cid feed none = .ok (baseRows cid feed) := by
  simp [get_boarddoc_meetings, hne]

theorem get_nn_eq (cid : String) (feed : List JsonMeeting)
    (hne : feed.isEmpty = false) :
    get_boarddoc_meetings cid feed (some (none, none)) =
      .ok (baseRows cid feed) := by
  simp [get_boarddoc_meetings, hne]

theorem get_nt_eq (cid : String) (feed : List JsonMeeting) {t : String}
    {b : Int} (hne : feed.isEmpty = false) (hb : strToInt? t = some b) :
    get_boarddoc_meetings cid feed (some (none, some t)) =
      filterRows (fun d => d ≤ b) (baseRows cid feed) := by
  simp [get_boarddoc_meetings, hne, hb]

theorem get_fn_eq (cid : String) (feed : List JsonMeeting) {f : String}
    {a : Int} (hne : feed.isEmpty = false) (ha : strToInt? f = some a) :
    get_boarddoc_meetings cid feed (some (some f, none)) =
      filterRows (fun d => a ≤ d) (baseRows cid feed) := by
  simp [get_boarddoc_meetings, hne, ha]

theorem get_ft_eq (cid : String) (feed : List JsonMeeting) {f t : String}
    {a b : Int} (hne : feed.isEmpty = false) (ha : strToInt? f = some a)
    (hb : strToInt? t = some b) :
    get_boarddoc_meetings cid feed (some (some f, some t)) =
      filterRows (fun d => a ≤ d && d ≤ b) (baseRows cid feed) := by
  simp [get_boarddoc_meetings, hne, ha, hb]

theorem get_ok_cases {cid : String} {feed : List JsonMeeting}
    {date : Option (Option String × Option String)} {out : List MeetingRow}
    (h : get_boarddoc_meetings cid feed date = .ok out) :
    out = baseRows cid feed ∨
      ∃ p, filterRows p (baseRows cid feed) = .ok out := by
  have hne := get_ok_isEmpty_false h
  rcases date with _ | ⟨_ | f, _ | t⟩
  · rw [get_none_eq cid feed hne] at h
    exact Or.inl (by cases h; rfl)
  · rw [get_nn_eq cid feed hne] at h
    exact Or.inl (by cases h; rfl)
  · rcases hb : strToInt? t with _ | b
    · simp [get_boarddoc_meetings, hne, hb] at h
    · rw [get_nt_eq cid feed hne hb] at h
      exact Or.inr ⟨_, h⟩
  · rcases ha : strToInt? f with _ | a
    · simp [get_boarddoc_meetings, hne, ha] at h
    · rw [get_fn_eq cid feed hne ha] at h
      exact Or.inr ⟨_, h⟩
  · rcases ha : strToInt? f with _ | a
    · simp [get_boarddoc_meetings, hne, ha] at h
    · rcases hb : strToInt? t with _ | b
      · simp [get_boarddoc_meetings, hne, ha, hb] at h
      · rw [get_ft_eq cid feed hne ha hb] at h
        exact Or.inr ⟨_, h⟩

theorem mem_baseRows_isSome {cid : String} {feed : List JsonMeeting}
    {r : MeetingRow} (hr : r ∈ baseRows cid feed) : r.meeting_id.isSome :=
  (List.mem_filter.mp hr).2

/-! ### Claim theorems: the Meeting-List Fetcher -/

/-- C1: date filtering.  For every fetched meeting list and filter tuple,
when both bounds are strings (parsing to `a` and `b`) the output keeps
exactly the dropped-projection rows whose date satisfies `a ≤ d ≤ b`;
with only the upper (resp. lower) bound a string, exactly those with
`d ≤ b` (resp. `a ≤ d`); with both sides absent, or no tuple at all, the
output is the unfiltered (deduplicated-by-presence) row list. -/
theorem claim_C1 (cid : String) (feed : List JsonMeeting) (f t : String)
    (a b : Int) (out : List MeetingRow)
    (ha : strToInt? f = some a) (hb : strToInt? t = some b) :
    (get_boarddoc_meetings cid feed (some (some f, some t)) = .ok out →
      ∀ r, r ∈ out ↔ r ∈ baseRows cid feed ∧
        ∃ d, rowDate? r = some d ∧ a ≤ d ∧ d ≤ b)
  ∧ (get_boarddoc_meetings cid feed (some (none, some t)) = .ok out →
      ∀ r, r ∈ out ↔ r ∈ baseRows cid feed ∧
        ∃ d, rowDate? r = some d ∧ d ≤ b)
  ∧ (get_boarddoc_meetings cid feed (some (some f, none)) = .ok out →
      ∀ r, r ∈ out ↔ r ∈ baseRows cid feed ∧
        ∃ d, rowDate? r = some d ∧ a ≤ d)
  ∧ (get_boarddoc_meetings cid feed (some (none, none)) = .ok out →
      out = baseRows cid feed)
  ∧ (get_boarddoc_meetings cid feed none = .ok out →
      out = baseRows cid feed) := by
  refine ⟨?_, ?_, ?_, ?_, ?_⟩ <;> intro h <;>
    have hne := get_ok_isEmpty_false h
  · rw [get_ft_eq cid feed hne ha hb] at h
    intro r
    have := filterRows_ok_iff h r
    simpa using this
  · rw [get_nt_eq cid feed hne hb] at h
    intro r
    have := filterRows_ok_iff h r
    simpa using this
  · rw [get_fn_eq cid feed hne ha] at h
    intro r
    have := filterRows_ok_iff h r
    simpa using this
  · rw [get_nn_eq cid feed hne] at h
    cases h; rfl
  · rw [get_none_eq cid feed hne] at h
    cases h; rfl

/-- Witness for C1 at the end-to-end scenario's committee B feed with
the filter `("20240101", "20240101")`. -/
theorem claim_C1_witness :
    rowB1 ∈ [rowB1] ↔ rowB1 ∈ baseRows "B" feedB ∧
      ∃ d, rowDate? rowB1 = some d ∧ (20240101 : Int) ≤ d ∧ d ≤ 20240101 :=
  (claim_C1 "B" feedB "20240101" "20240101" 20240101 20240101 [rowB1]
    rfl rfl).1 rfl rowB1

/-- C7: a feed record whose identifier is missing is dropped, a record
with a present identifier survives the drop, and any (pre- or
post-filter) output only contains rows of the dropped projection — the
drop happens before date filtering. -/
theorem claim_C7 (cid : String) (feed : List JsonMeeting)
    (date : Option (Option String × Option String)) (out : List MeetingRow)
    (h : get_boarddoc_meetings cid feed date = .ok out) :
    (∀ r ∈ out, r.meeting_id.isSome)
  ∧ List.Sublist out (baseRows cid feed)
  ∧ (∀ m ∈ feed, (projectMeeting cid m ∈ baseRows cid feed ↔
      m.unique.isSome)) := by
  have hsub : List.Sublist out (baseRows cid feed) := by
    rcases get_ok_cases h with h1 | ⟨p, h1⟩
    · exact h1 ▸ List.Sublist.refl _
    · exact filterRows_ok_sublist h1
  refine ⟨fun r hr => mem_baseRows_isSome (hsub.subset hr), hsub, fun m hm => ?_⟩
  constructor
  · intro hmem
    have := mem_baseRows_isSome hmem
    simpa [projectMeeting] using this
  · intro hsome
    exact List.mem_filter.mpr
      ⟨List.mem_map_of_mem (projectMeeting cid) hm, by simpa [projectMeeting]⟩

/-- Witness for C7 at committee B's unfiltered feed. -/
theorem claim_C7_witness : List.Sublist [rowB1, rowB2] (baseRows "B" feedB) :=
  (claim_C7 "B" feedB none [rowB1, rowB2] rfl).2.1

/-! ### Lemmas about the District Orchestrator -/

theorem dropDupsAux_sublist (seen : List (Option String)) :
    ∀ l : List MeetingRow, List.Sublist (dropDupsAux seen l) l := by
  intro l
  induction l generalizing seen with
  | nil => exact List.Sublist.refl _
  | cons r rs ih =>
      unfold dropDupsAux
      split
      · exact List.Sublist.cons r (ih seen)
      · exact List.Sublist.cons₂ r (ih _)

/-- Every row the deduplication keeps is the *first* occurrence of its
identifier, and its identifier was not previously seen. -/
theorem dropDupsAux_first (seen : List (Option String))
    (l : List MeetingRow) (r : MeetingRow)
    (hr : r ∈ dropDupsAux seen l) :
    r.meeting_id ∉ seen ∧
      l.find? (fun x => x.meeting_id == r.meeting_id) = some r := by
  induction l generalizing seen with
  | nil => cases hr
  | cons x xs ih =>
      unfold dropDupsAux at hr
      split at hr
      · rcases ih seen hr with ⟨hnot, hfind⟩
        refine ⟨hnot, ?_⟩
        rw [List.find?_cons_of_neg, hfind]
        simp only [beq_iff_eq]
        intro hxr
        exact hnot (hxr ▸ ‹x.meeting_id ∈ seen›)
      · rcases List.mem_cons.mp hr with hx | hx
        · subst hx
          refine ⟨‹r.meeting_id ∉ seen›, ?_⟩
          rw [List.find?_cons_of_pos]
          simp
        · rcases ih _ hx with ⟨hnot, hfind⟩
          have hne : x.meeting_id ≠ r.meeting_id := by
            intro he
            exact hnot (he ▸ List.mem_cons_self _ _)
          refine ⟨fun hs => hnot (List.mem_cons_of_mem _ hs), ?_⟩
          rw [List.find?_cons_of_neg, hfind]
          simpa using hne

/-- The kept identifiers are pairwise distinct. -/
theorem dropDupsAux_nodup (seen : List (Option String)) :
    ∀ l : List MeetingRow,
      ((dropDupsAux seen l).map (fun r => r.meeting_id)).Nodup := by
  intro l
  induction l generalizing seen with
  | nil => simp [dropDupsAux]
  | cons x xs ih =>
      unfold dropDupsAux
      split
      · exact ih seen
      · refine List.Nodup.cons ?_ (ih _)
        intro hmem
        rcases List.mem_map.mp hmem with ⟨r, hr, hid⟩
        exact (dropDupsAux_first _ _ _ hr).1 (hid ▸ List.mem_cons_self _ _)

/-- No row is lost outright: every dropped row has a kept row with the
same identifier. -/
theorem dropDupsAux_complete (seen : List (Option String))
    (l : List MeetingRow) (r : MeetingRow) (hr : r ∈ l) :
    r.meeting_id ∈ seen ∨
      ∃ x ∈ dropDupsAux seen l, x.meeting_id = r.meeting_id := by
  induction l generalizing seen with
  | nil => cases hr
  | cons y ys ih =>
      unfold dropDupsAux
      rcases List.mem_cons.mp hr with hy | hy
      · subst hy
        split
        · exact Or.inl ‹r.meeting_id ∈ seen›
        · exact Or.inr ⟨r, List.mem_cons_self _ _, rfl⟩
      · split
        · exact ih seen hy
        · rcases ih (y.meeting_id :: seen) hy with hin | ⟨x, hx, he⟩
          · rcases List.mem_cons.mp hin with he | hin
            · exact Or.inr ⟨y, List.mem_cons_self _ _, he.symm⟩
            · exact Or.inl hin
          · exact Or.inr ⟨x, List.mem_cons_of_mem _ hx, he⟩

theorem districtMeetings_ok_of_mapM {feeds : String → List JsonMeeting}
    {committee_ids : List String}
    {date : Option (Option String × Option String)}
    {ls : List (List MeetingRow)} (hne : committee_ids ≠ [])
    (hfetch : committee_ids.mapM
      (fun c => get_boarddoc_meetings c (feeds c) date) = .ok ls) :
    districtMeetings feeds committee_ids date = .ok ls.flatten := by
  match committee_ids, hne with
  | [c], _ =>
      rw [List.mapM_cons, List.mapM_nil] at hfetch
      cases hg : get_boarddoc_meetings c (feeds c) date with
      | error e => rw [hg] at hfetch; cases hfetch
      | ok l =>
          rw [hg] at hfetch
          cases hfetch
          simpa [districtMeetings] using hg
  | c1 :: c2 :: cs, _ =>
      show (((c1 :: c2 :: cs).mapM
        (fun c => get_boarddoc_meetings c (feeds c) date)).map List.flatten) =
          .ok ls.flatten
      rw [hfetch]
      rfl

theorem agendasLoop_ok_forall₂ {pages : String → String → Html}
    {ms : List MeetingRow} {ags : List AgendaData}
    (h : agendasLoop pages ms = .ok ags) :
    List.Forall₂ (fun m a => processCall pages m = .ok a) ms ags := by
  induction ms generalizing ags with
  | nil =>
      cases h
      exact List.Forall₂.nil
  | cons m ms ih =>
      unfold agendasLoop at h
      cases hc : processCall pages m with
      | error e => rw [hc] at h; cases h
      | ok a =>
          rw [hc] at h
          cases hrest : agendasLoop pages ms with
          | error e => rw [hrest] at h; cases h
          | ok rest =>
              rw [hrest] at h
              cases h
              exact List.Forall₂.cons hc (ih hrest)

theorem agendasLoop_error_append (pages : String → String → Html)
    (pre : List MeetingRow) (m : MeetingRow) (suf : List MeetingRow)
    (e : String) (hpre : ∀ x ∈ pre, ∃ a, processCall pages x = .ok a)
    (hm : processCall pages m = .error e) :
    agendasLoop pages (pre ++ m :: suf) = .error e := by
  induction pre with
  | nil =>
      show agendasLoop pages (m :: suf) = .error e
      unfold agendasLoop
      rw [hm]
      rfl
  | cons x xs ih =>
      rcases hpre x (List.mem_cons_self _ _) with ⟨a, ha⟩
      have hrest := ih (fun y hy => hpre y (List.mem_cons_of_mem _ hy))
      show agendasLoop pages (x :: (xs ++ m :: suf)) = .error e
      unfold agendasLoop
      rw [ha, hrest]
      rfl

theorem filterRows_error {p : Int → Bool} {rows : List MeetingRow}
    {e : String} (h : filterRows p rows = .error e) : e = "ValueError" := by
  unfold filterRows at h
  split at h
  · cases h
  · cases h; rfl

/-- The Meeting-List Fetcher only ever raises `KeyError` or
`ValueError` (never the orchestrator's `NameError`). -/
theorem get_error_cases {cid : String} {feed : List JsonMeeting}
    {date : Option (Option String × Option String)} {e : String}
    (h : get_boarddoc_meetings cid feed date = .error e) :
    e = "KeyError" ∨ e = "ValueError" := by
  cases hE : feed.isEmpty
  · rcases date with _ | ⟨_ | f, _ | t⟩
    · rw [get_none_eq cid feed hE] at h; cases h
    · rw [get_nn_eq cid feed hE] at h; cases h
    · rcases hb : strToInt? t with _ | b
      · refine Or.inr ?_
        have h2 : get_boarddoc_meetings cid feed (some (none, some t)) =
            .error "ValueError" := by
          simp [get_boarddoc_meetings, hE, hb]
        rw [h2] at h
        cases h; rfl
      · exact Or.inr (filterRows_error (by rw [get_nt_eq cid feed hE hb] at h; exact h))
    · rcases ha : strToInt? f with _ | a
      · refine Or.inr ?_
        have h2 : get_boarddoc_meetings cid feed (some (some f, none)) =
            .error "ValueError" := by
          simp [get_boarddoc_meetings, hE, ha]
        rw [h2] at h
        cases h; rfl
      · exact Or.inr (filterRows_error (by rw [get_fn_eq cid feed hE ha] at h; exact h))
    · rcases ha : strToInt? f with _ | a
      · refine Or.inr ?_
        have h2 : get_boarddoc_meetings cid feed (some (some f, some t)) =
            .error "ValueError" := by
          simp [get_boarddoc_meetings, hE, ha]
        rw [h2] at h
        cases h; rfl
      · rcases hb : strToInt? t with _ | b
        · refine Or.inr ?_
          have h2 : get_boarddoc_meetings cid feed (some (some f, some t)) =
              .error "ValueError" := by
            simp [get_boarddoc_meetings, hE, ha, hb]
          rw [h2] at h
          cases h; rfl
        · exact Or.inr (filterRows_error
            (by rw [get_ft_eq cid feed hE ha hb] at h; exact h))
  · refine Or.inl ?_
    have h2 : get_boarddoc_meetings cid feed date = .error "KeyError" := by
      unfold get_boarddoc_meetings
      rw [hE]
      rfl
    rw [h2] at h
    cases h; rfl

theorem mapM_error_mem {α β : Type} (f : α → Except String β) :
    ∀ (l : List α) (e : String), l.mapM f = .error e →
      ∃ c ∈ l, f c = .error e := by
  intro l e h
  induction l with
  | nil =>
      rw [List.mapM_nil] at h
      cases h
  | cons x xs ih =>
      rw [List.mapM_cons] at h
      cases hx : f x with
      | error e2 =>
          rw [hx] at h
          have h2 : (Except.error e2 : Except String (List β)) = .error e := h
          cases h2
          exact ⟨x, List.mem_cons_self _ _, hx⟩
      | ok b =>
          rw [hx] at h
          cases hxs : xs.mapM f with
          | error e2 =>
              rw [hxs] at h
              have h2 : (Except.error e2 : Except String (List β)) = .error e := h
              cases h2
              rcases ih hxs with ⟨c, hc, hfc⟩
              exact ⟨c, List.mem_cons_of_mem _ hc, hfc⟩
          | ok bs =>
              rw [hxs] at h
              have h2 : (Except.ok (b :: bs) : Except String (List β)) = .error e := h
              cases h2

/-! ### Claim theorems: the District Orchestrator -/

/-- C2: on a successful run over a non-empty committee list whose
per-committee fetches return `ls`, the meeting collection is the
concatenation of the per-committee lists in committee order,
deduplicated by identifier keeping the first occurrence (order
preserved, identifiers pairwise distinct, no identifier lost), and the
agenda list pairs each remaining meeting, in order, with the result of
exactly one Agenda Extractor call for it. -/
theorem claim_C2 (feeds : String → List JsonMeeting)
    (pages : String → String → Html) (committee_ids : List String)
    (date : Option (Option String × Option String))
    (ls : List (List MeetingRow)) (ms : List MeetingRow)
    (ags : List AgendaData) (hne : committee_ids ≠ [])
    (hfetch : committee_ids.mapM
      (fun c => get_boarddoc_meetings c (feeds c) date) = .ok ls)
    (hrun : process_boarddoc_district feeds pages committee_ids date =
      .ok (ms, ags)) :
    ms = drop_duplicates ls.flatten
  ∧ List.Sublist ms ls.flatten
  ∧ ((ms.map (fun r => r.meeting_id)).Nodup)
  ∧ (∀ r ∈ ms, ls.flatten.find? (fun x => x.meeting_id == r.meeting_id) =
      some r)
  ∧ (∀ r ∈ ls.flatten, ∃ x ∈ ms, x.meeting_id = r.meeting_id)
  ∧ List.Forall₂ (fun m a => processCall pages m = .ok a) ms ags := by
  have hdm := districtMeetings_ok_of_mapM hne hfetch
  unfold process_boarddoc_district at hrun
  rw [hdm] at hrun
  have hb : (agendasLoop pages (drop_duplicates ls.flatten)).bind
      (fun agendas => Except.ok (drop_duplicates ls.flatten, agendas)) =
      Except.ok (ms, ags) := hrun
  cases hal : agendasLoop pages (drop_duplicates ls.flatten) with
  | error e =>
      rw [hal] at hb
      have h3 : (Except.error e :
          Except String (List MeetingRow × List AgendaData)) = .ok (ms, ags) := hb
      cases h3
  | ok ags2 =>
      rw [hal] at hb
      have h3 : (Except.ok (drop_duplicates ls.flatten, ags2) :
          Except String (List MeetingRow × List AgendaData)) = .ok (ms, ags) := hb
      simp only [Except.ok.injEq, Prod.mk.injEq] at h3
      obtain ⟨h5, h6⟩ := h3
      subst h5
      subst h6
      refine ⟨rfl, dropDupsAux_sublist [] _, dropDupsAux_nodup [] _,
        fun r hr => (dropDupsAux_first [] _ r hr).2,
        fun r hr => ?_, agendasLoop_ok_forall₂ hal⟩
      rcases dropDupsAux_complete [] _ r hr with hin | ⟨x, hx, he⟩
      · cases hin
      · exact ⟨x, hx, he⟩

/-- Witness for C2 at the spec's end-to-end scenario: committees
`["A", "B"]`, filter `("20240101", "20240101")`. -/
theorem claim_C2_witness :
    [rowA1] = drop_duplicates ([[rowA1], [rowB1]].flatten) :=
  (claim_C2 feedsAB pagesPlain ["A", "B"]
    (some (some "20240101", some "20240101"))
    [[rowA1], [rowB1]] [rowA1] [plainAgenda "1"]
    (by decide) rfl rfl).1

/-- C6: if the merged meeting list is obtained, every meeting before
some point processes fine, and the Agenda Extractor fails at that point
with error `e`, the whole district run returns exactly `Except.error e`
— no partial agenda collection, and the meetings after the failing one
(the arbitrary `suf`, about which nothing is assumed) are irrelevant. -/
theorem claim_C6 (feeds : String → List JsonMeeting)
    (pages : String → String → Html) (committee_ids : List String)
    (date : Option (Option String × Option String))
    (merged pre suf : List MeetingRow) (m : MeetingRow) (e : String)
    (hdm : districtMeetings feeds committee_ids date = .ok merged)
    (hsplit : drop_duplicates merged = pre ++ m :: suf)
    (hpre : ∀ x ∈ pre, ∃ a, processCall pages x = .ok a)
    (hm : processCall pages m = .error e) :
    process_boarddoc_district feeds pages committee_ids date = .error e := by
  unfold process_boarddoc_district
  rw [hdm]
  show (agendasLoop pages (drop_duplicates merged)).bind
    (fun agendas => Except.ok (drop_duplicates merged, agendas)) = .error e
  rw [hsplit, agendasLoop_error_append pages pre m suf e hpre hm]
  rfl

/-- Witness for C6: on committee B's two meetings, meeting 1 extracts
fine and meeting 2's page lacks the meeting-name element, so the whole
district run returns that `AttributeError`. -/
theorem claim_C6_witness :
    process_boarddoc_district feedsAB pagesBad2 ["B"] none =
      .error "AttributeError" :=
  claim_C6 feedsAB pagesBad2 ["B"] none [rowB1, rowB2] [rowB1] [] rowB2
    "AttributeError" rfl rfl
    (by
      intro x hx
      rcases List.mem_singleton.mp hx with rfl
      exact ⟨plainAgenda "1", rfl⟩)
    rfl

/-- C9: with an empty committee list the orchestrator fails with the
`NameError` of the never-assigned `meetings` variable (rather than
returning an empty collection pair); with a non-empty committee list
that error branch is unreachable — the meeting-list phase never
produces a `NameError`. -/
theorem claim_C9 (feeds : String → List JsonMeeting)
    (pages : String → String → Html)
    (date : Option (Option String × Option String))
    (committee_ids : List String) (hne : committee_ids ≠ []) :
    process_boarddoc_district feeds pages [] date = .error "NameError"
  ∧ districtMeetings feeds committee_ids date ≠ .error "NameError" := by
  constructor
  · rfl
  · intro hcontra
    match committee_ids, hne with
    | [c], _ =>
        have h2 : get_boarddoc_meetings c (feeds c) date =
            .error "NameError" := hcontra
        rcases get_error_cases h2 with h3 | h3 <;> exact absurd h3 (by decide)
    | c1 :: c2 :: cs, _ =>
        cases hmm : (c1 :: c2 :: cs).mapM
          (fun c => get_boarddoc_meetings c (feeds c) date) with
        | ok ls =>
            have h2 : ((c1 :: c2 :: cs).mapM
              (fun c => get_boarddoc_meetings c (feeds c) date)).map
                List.flatten = .error "NameError" := hcontra
            rw [hmm] at h2
            cases h2
        | error e =>
            have h2 : ((c1 :: c2 :: cs).mapM
              (fun c => get_boarddoc_meetings c (feeds c) date)).map
                List.flatten = .error "NameError" := hcontra
            rw [hmm] at h2
            have h3 : (Except.error e :
                Except String (List MeetingRow)) = .error "NameError" := h2
            cases h3
            rcases mapM_error_mem _ _ _ hmm with ⟨c, _, hc⟩
            rcases get_error_cases hc with h4 | h4 <;> exact absurd h4 (by decide)

/-- Witness for C9 at a singleton committee list. -/
theorem claim_C9_witness :
    process_boarddoc_district feedsAB pagesPlain [] none =
        .error "NameError"
  ∧ districtMeetings feedsAB ["A"] none ≠ .error "NameError" :=
  claim_C9 feedsAB pagesPlain none ["A"] (by decide)

/-! ### Lemmas about the Agenda Extractor's item scan -/

theorem except_bind_ok {α β : Type} (a : α) (f : α → Except String β) :
    (Except.ok a >>= f) = f a := rfl

theorem allNodesList_append (xs ys : List Html) :
    Html.allNodesList (xs ++ ys) =
      Html.allNodesList xs ++ Html.allNodesList ys := by
  induction xs with
  | nil => rfl
  | cons x xs ih =>
      show Html.allNodesList (x :: (xs ++ ys)) = _
      simp only [Html.allNodesList]
      rw [ih, List.append_assoc]

theorem allDivs_docOf (body : List Html) :
    allDivs (docOf body) =
      (Html.allNodesList body).filter (fun n => Html.tagOf n = "div") := by
  unfold allDivs docOf
  simp only [Html.allNodes]
  rw [List.filter_cons]
  simp [Html.tagOf]

/-- Appending one node that is its own only `div` to a page body runs
the item scan on the old body and then one `itemStep` on that node. -/
theorem itemsOf_snoc (pre : List Html) (d : Html) (acc : List String)
    (hpre : itemsOf (docOf pre) = .ok acc)
    (hd : (Html.allNodes d).filter (fun n => Html.tagOf n = "div") = [d]) :
    itemsOf (docOf (pre ++ [d])) = itemStep acc d := by
  unfold itemsOf at hpre ⊢
  rw [allDivs_docOf] at hpre ⊢
  rw [allNodesList_append, List.filter_append, List.foldlM_append,
    hpre, except_bind_ok]
  have h1 : Html.allNodesList [d] = Html.allNodes d := by
    simp [Html.allNodesList]
  rw [h1, hd, List.foldlM_cons]
  simp only [List.foldlM_nil]
  exact bind_pure (itemStep acc d)

theorem itemStep_levelOne (acc : List String) (t : String) :
    itemStep acc (levelOneDiv t) =
      .ok (if t ∈ acc then acc else acc ++ [t]) := by
  unfold itemStep levelOneDiv
  simp [Html.getAttr, Html.getText, Html.getTextList, String.append_empty,
    apply_ite]

/-- `itemStep` on any `agendaorder`-class `div` that carries no
`aria-level` attribute: the Subject-line item is appended, with no
membership test. -/
theorem itemStep_ordering (acc : List String) (cls : List String)
    (attrs : List (String × String)) (ch : List Html) (t : String)
    (hcls : "agendaorder" ∈ cls)
    (hattrs : attrs.find? (fun p => p.1 = "aria-level") = none)
    (htext : Html.getTextList ch = t) :
    itemStep acc (.elem "div" (some cls) attrs ch) =
      (fromOption "TypeError" (subjectAfter? t)).map (fun q => acc ++ [q]) := by
  unfold itemStep
  simp [Html.getAttr, hattrs, Html.hasClassAttr, Html.classesOf, hcls,
    Html.getText, htext]

/-! ### Claim theorems: agenda-item extraction (C3, C4) -/

/-- C3: dual deduplication.  Appending a top-level (`aria-level="1"`)
element to any page contributes its full text only if that text is not
already in the item list; appending an `agendaorder`-class element
always appends its Subject-line text, with no deduplication — even when
that text is already present. -/
theorem claim_C3 (pre : List Html) (acc : List String) (t s : String)
    (hpre : itemsOf (docOf pre) = .ok acc) :
    (itemsOf (docOf (pre ++ [levelOneDiv t])) =
      .ok (if t ∈ acc then acc else acc ++ [t]))
  ∧ (subjectAfter? t = some s →
      itemsOf (docOf (pre ++ [orderingDiv t])) = .ok (acc ++ [s])) := by
  constructor
  · rw [itemsOf_snoc pre (levelOneDiv t) acc hpre rfl, itemStep_levelOne]
  · intro hsub
    rw [itemsOf_snoc pre (orderingDiv t) acc hpre rfl]
    show itemStep acc (.elem "div" (some ["agendaorder"]) [] [.text t]) = _
    rw [itemStep_ordering acc ["agendaorder"] [] [.text t] t (by simp) rfl
      (by simp [Html.getTextList, Html.getText, String.append_empty]), hsub]
    rfl

/-- Witness for C3: one `agendaorder` section whose Subject line reads
`A` — and, per the first conjunct at the same inputs, the level rule. -/
theorem claim_C3_witness :
    itemsOf (docOf ([] ++ [orderingDiv "Subject\nA"])) = .ok ([] ++ ["A"]) :=
  (claim_C3 [] [] "Subject\nA" "A" rfl).2 rfl

/-- C4, counterexample: an element tagged with the `agendaorder` class
whose Subject line reads `Foo` but which *also* carries an
`aria-level="2"` attribute contributes no item at all — the `elif` of
line 108 is never reached — although the claim's "regardless of what
other attributes the element carries" demands the item `Foo`. -/
theorem claim_C4_counterexample :
    subjectAfter? "Subject\nFoo" = some "Foo"
  ∧ itemsOf (docOf [Html.elem "div" (some ["agendaorder"])
      [("aria-level", "2")] [.text "Subject\nFoo"]]) = .ok [] :=
  ⟨rfl, rfl⟩

/-- C4, amended: every `agendaorder`-class element that does *not*
carry the hierarchical `aria-level` attribute contributes its
Subject-line text, whatever its other attributes and classes are; and
both the hierarchical-level rule and the `agendaorder`-class rule may
fire across the same document. -/
theorem claim_C4_amended (pre : List Html) (acc : List String)
    (cls : List String) (attrs : List (String × String)) (t u s : String)
    (hpre : itemsOf (docOf pre) = .ok acc)
    (hcls : "agendaorder" ∈ cls)
    (hattrs : attrs.find? (fun p => p.1 = "aria-level") = none)
    (hsub : subjectAfter? t = some s) :
    itemsOf (docOf (pre ++ [Html.elem "div" (some cls) attrs [.text t]])) =
      .ok (acc ++ [s])
  ∧ itemsOf (docOf (pre ++ [levelOneDiv u,
      Html.elem "div" (some cls) attrs [.text t]])) =
      .ok ((if u ∈ acc then acc else acc ++ [u]) ++ [s]) := by
  have hdivs : (Html.allNodes (Html.elem "div" (some cls) attrs [.text t])).filter
      (fun n => Html.tagOf n = "div") = [Html.elem "div" (some cls) attrs [.text t]] := by
    simp [Html.allNodes, Html.allNodesList, Html.tagOf]
  have horder : itemStep acc (Html.elem "div" (some cls) attrs [.text t]) =
      .ok (acc ++ [s]) := by
    rw [itemStep_ordering acc cls attrs [.text t] t hcls hattrs
      (by simp [Html.getTextList, Html.getText, String.append_empty]), hsub]
    rfl
  constructor
  · rw [itemsOf_snoc pre _ acc hpre hdivs, horder]
  · have h1 : itemsOf (docOf (pre ++ [levelOneDiv u])) =
        .ok (if u ∈ acc then acc else acc ++ [u]) := by
      rw [itemsOf_snoc pre (levelOneDiv u) acc hpre rfl, itemStep_levelOne]
    have h2 : pre ++ [levelOneDiv u, Html.elem "div" (some cls) attrs [.text t]] =
        (pre ++ [levelOneDiv u]) ++ [Html.elem "div" (some cls) attrs [.text t]] := by
      rw [List.append_assoc]
      rfl
    rw [h2, itemsOf_snoc (pre ++ [levelOneDiv u]) _ _ h1 hdivs]
    have horder2 : itemStep (if u ∈ acc then acc else acc ++ [u])
        (Html.elem "div" (some cls) attrs [.text t]) =
        .ok ((if u ∈ acc then acc else acc ++ [u]) ++ [s]) := by
      rw [itemStep_ordering _ cls attrs [.text t] t hcls hattrs
        (by simp [Html.getTextList, Html.getText, String.append_empty]), hsub]
      rfl
    rw [horder2]

/-- Witness for C4's amended claim: an `agendaorder` element with an
extra class and an unrelated attribute still contributes its Subject
line, after a level-1 heading contributed its text. -/
theorem claim_C4_witness :
    itemsOf (docOf ([] ++ [levelOneDiv "U",
      Html.elem "div" (some ["agendaorder", "x"]) [("data-k", "v")]
        [.text "Subject\nA"]])) =
      .ok ((if "U" ∈ ([] : List String) then [] else [] ++ ["U"]) ++ ["A"]) :=
  (claim_C4_amended [] [] ["agendaorder", "x"] [("data-k", "v")]
    "Subject\nA" "U" "A" rfl (by decide) rfl rfl).2

/-- C5: evaluation of the Agenda Extractor at the claim's inputs.  The
designated description element of `plainPage` holds the plain text
`hello` (`.string` is `some "hello"`), yet the extracted description is
`""` — the `type(x) is str` test of line 96 compares the exact runtime
class, and bs4's `.string` returns a `NavigableString`, a proper
subclass of `str`, so the copying branch is dead code.  And when the
description element is missing altogether the extractor does *not*
default to `""`: line 96 calls `.string` on `None` and the operation
fails with an `AttributeError`. -/
theorem claim_C5_description_bug :
    Html.dotString (descDiv "hello") = some "hello"
  ∧ process_boarddoc_meeting "m1" plainPage = .ok (plainAgenda "m1")
  ∧ (plainAgenda "m1").description = ""
  ∧ process_boarddoc_meeting "m1" (docOf [nameDiv, dateDiv]) =
      .error "AttributeError" :=
  ⟨rfl, rfl, rfl, rfl⟩

/-! ### Lemmas about the file passes on `fileDoc` pages -/

/-- One legacy-content iteration, evaluated from its five lookups. -/
theorem legacyStep_eval (acc : List (String × String × String))
    (anc : List Html) (par a file : Html) (sline fname target : String)
    (hpar : agendaorderParent anc = some par)
    (hitem : subjectAfter? (Html.getText par) = some sline)
    (hfile : Html.findDescendant Html.isTag a = some file)
    (hname : (Html.getAttr "alt" file).getD "" = fname)
    (htarget : (Html.getAttr "href" a).getD "" = target) :
    legacyStep acc (anc, a) = .ok (acc ++ [(sline, fname, target)]) := by
  unfold legacyStep
  rw [hpar]
  simp only [fromOption, except_bind_ok]
  rw [hitem]
  simp only [fromOption, except_bind_ok]
  rw [hfile]
  simp only [fromOption, except_bind_ok]
  rw [hname, htarget]

/-- One legacy-content iteration whose anchor has no descendant tag:
`findChild()` returns `None` and the `has_attr` access raises. -/
theorem legacyStep_noChild (acc : List (String × String × String))
    (anc : List Html) (par a : Html) (sline : String)
    (hpar : agendaorderParent anc = some par)
    (hitem : subjectAfter? (Html.getText par) = some sline)
    (hfile : Html.findDescendant Html.isTag a = none) :
    legacyStep acc (anc, a) = .error "AttributeError" := by
  unfold legacyStep
  rw [hpar]
  simp only [fromOption, except_bind_ok]
  rw [hitem]
  simp only [fromOption, except_bind_ok]
  rw [hfile]
  rfl

/-- The Subject line of `orderWrap` is the subject text itself whenever
the embedded hyperlink contributes no visible text. -/
theorem subject_orderWrap (subjText : String) (anchor : Html)
    (hta : Html.getText anchor = "") :
    Html.getText (orderWrap subjText anchor) = subjText := by
  show Html.getTextList [.text subjText, anchor] = subjText
  simp only [Html.getTextList, Html.getText, hta]
  rw [String.append_empty, String.append_empty]

/-- The item scan of a `fileDoc` page records exactly the Subject-line
item of its single `agendaorder` section, provided the hyperlink is a
tag with no text and no nested `div`. -/
theorem itemsOf_fileDoc (subjText s : String) (anchor : Html)
    (hsub : subjectAfter? subjText = some s)
    (hta : Html.getText anchor = "")
    (hdivs : allDivs (fileDoc subjText anchor) =
      [nameDiv, dateDiv, descDiv "hello", orderWrap subjText anchor]) :
    itemsOf (fileDoc subjText anchor) = .ok [s] := by
  have s4 : itemStep [] (orderWrap subjText anchor) = .ok [s] := by
    show itemStep []
      (.elem "div" (some ["agendaorder"]) [] [.text subjText, anchor]) = _
    rw [itemStep_ordering [] ["agendaorder"] [] [.text subjText, anchor]
      subjText (by simp) rfl (subject_orderWrap subjText anchor hta), hsub]
    rfl
  unfold itemsOf
  rw [hdivs]
  simp only [List.foldlM_cons, List.foldlM_nil, except_bind_ok,
    show itemStep [] nameDiv = .ok [] from rfl,
    show itemStep [] dateDiv = .ok [] from rfl,
    show itemStep [] (descDiv "hello") = .ok [] from rfl, s4]
  rfl

/-- Assembly of one Agenda Extractor run from the values of its five
lookups (a successful run with an always-false description test). -/
theorem process_eval (mid : String) (soup : Html) (nEl dEl cEl : Html)
    (its : List String) (fls : List (String × String × String))
    (hn : Html.findTagClass "div" "print-meeting-name" soup = some nEl)
    (hd : Html.findTagClass "div" "print-meeting-date" soup = some dEl)
    (hc : Html.findTagClass "div" "print-meeting-description" soup = some cEl)
    (hi : itemsOf soup = .ok its)
    (hf : filesOf soup = .ok fls) :
    process_boarddoc_meeting mid soup = .ok
      { meeting_id := mid
        name := Html.dotString nEl
        date := Html.dotString dEl
        description := ""
        items := its
        full_text := Html.getText soup
        files := fls } := by
  unfold process_boarddoc_meeting
  rw [hn, hd, hc, hi, hf]
  rfl

/-- C8: legacy-content file naming.  For every matching hyperlink
target, Subject line and alt text: when the hyperlink's first child
element carries an `alt` attribute the recorded triple is
(Subject-line label, alt text, target); when the child lacks `alt` the
display name is the empty string. -/
theorem claim_C8 (subjText href alt s : String)
    (hsub : subjectAfter? subjText = some s)
    (hhref : legacyContentHref href = true) :
    (process_boarddoc_meeting "m"
        (fileDoc subjText (anchorOf href [imgAlt alt]))).map AgendaData.files =
      .ok [(s, alt, href)]
  ∧ (process_boarddoc_meeting "m"
        (fileDoc subjText (anchorOf href [imgPlain]))).map AgendaData.files =
      .ok [(s, "", href)] := by
  constructor
  · have hitems := itemsOf_fileDoc subjText s (anchorOf href [imgAlt alt])
      hsub rfl rfl
    have hanch : legacyAnchors (fileDoc subjText (anchorOf href [imgAlt alt])) =
        [([orderWrap subjText (anchorOf href [imgAlt alt]),
           fileDoc subjText (anchorOf href [imgAlt alt])],
          anchorOf href [imgAlt alt])] := by
      unfold legacyAnchors
      simp [Html.nodesWithAnc, Html.nodesWithAncList, Html.tagOf,
        Html.getAttr, hhref, fileDoc, docOf, nameDiv, dateDiv, descDiv,
        orderWrap, anchorOf, imgAlt]
    have hstep : legacyStep [] ([orderWrap subjText (anchorOf href [imgAlt alt]),
        fileDoc subjText (anchorOf href [imgAlt alt])],
        anchorOf href [imgAlt alt]) = .ok [(s, alt, href)] :=
      legacyStep_eval [] _ _ _ (imgAlt alt) s alt href rfl
        (by rw [subject_orderWrap subjText (anchorOf href [imgAlt alt]) rfl]
            exact hsub) rfl rfl rfl
    have hfiles : filesOf (fileDoc subjText (anchorOf href [imgAlt alt])) =
        .ok [(s, alt, href)] := by
      unfold filesOf
      rw [show publicFileDivs (fileDoc subjText (anchorOf href [imgAlt alt])) =
        ([] : List (List Html × Html)) from rfl, hanch]
      simp only [List.foldlM_nil, List.foldlM_cons, pure_bind, hstep,
        except_bind_ok]
      rfl
    rw [process_eval "m" (fileDoc subjText (anchorOf href [imgAlt alt]))
      nameDiv dateDiv (descDiv "hello") [s] [(s, alt, href)]
      rfl rfl rfl hitems hfiles]
    rfl
  · have hitems := itemsOf_fileDoc subjText s (anchorOf href [imgPlain])
      hsub rfl rfl
    have hanch : legacyAnchors (fileDoc subjText (anchorOf href [imgPlain])) =
        [([orderWrap subjText (anchorOf href [imgPlain]),
           fileDoc subjText (anchorOf href [imgPlain])],
          anchorOf href [imgPlain])] := by
      unfold legacyAnchors
      simp [Html.nodesWithAnc, Html.nodesWithAncList, Html.tagOf,
        Html.getAttr, hhref, fileDoc, docOf, nameDiv, dateDiv, descDiv,
        orderWrap, anchorOf, imgPlain]
    have hstep : legacyStep [] ([orderWrap subjText (anchorOf href [imgPlain]),
        fileDoc subjText (anchorOf href [imgPlain])],
        anchorOf href [imgPlain]) = .ok [(s, "", href)] :=
      legacyStep_eval [] _ _ _ imgPlain s "" href rfl
        (by rw [subject_orderWrap subjText (anchorOf href [imgPlain]) rfl]
            exact hsub) rfl rfl rfl
    have hfiles : filesOf (fileDoc subjText (anchorOf href [imgPlain])) =
        .ok [(s, "", href)] := by
      unfold filesOf
      rw [show publicFileDivs (fileDoc subjText (anchorOf href [imgPlain])) =
        ([] : List (List Html × Html)) from rfl, hanch]
      simp only [List.foldlM_nil, List.foldlM_cons, pure_bind, hstep,
        except_bind_ok]
      rfl
    rw [process_eval "m" (fileDoc subjText (anchorOf href [imgPlain]))
      nameDiv dateDiv (descDiv "hello") [s] [(s, "", href)]
      rfl rfl rfl hitems hfiles]
    rfl

/-- Witness for C8 at a concrete page. -/
theorem claim_C8_witness :
    (process_boarddoc_meeting "m"
        (fileDoc "Subject\nItem A\nrest"
          (anchorOf "f/legacy-content/doc.pdf"
            [imgAlt "File One"]))).map AgendaData.files =
      .ok [("Item A", "File One", "f/legacy-content/doc.pdf")] :=
  (claim_C8 "Subject\nItem A\nrest" "f/legacy-content/doc.pdf" "File One"
    "Item A" rfl rfl).1

/-- Like `process_eval`, but the files pass fails and its error is the
run's result. -/
theorem process_eval_filesError (mid : String) (soup : Html)
    (nEl dEl cEl : Html) (its : List String) (e : String)
    (hn : Html.findTagClass "div" "print-meeting-name" soup = some nEl)
    (hd : Html.findTagClass "div" "print-meeting-date" soup = some dEl)
    (hc : Html.findTagClass "div" "print-meeting-description" soup = some cEl)
    (hi : itemsOf soup = .ok its)
    (hf : filesOf soup = .error e) :
    process_boarddoc_meeting mid soup = .error e := by
  unfold process_boarddoc_meeting
  rw [hn, hd, hc, hi, hf]
  rfl

/-- C10: a legacy-content hyperlink with *no* child element at all is
not recorded with an empty display name — `findChild()` returns `None`
and the `has_attr` access on it makes the whole extraction fail with an
`AttributeError`. -/
theorem claim_C10 (subjText href s : String)
    (hsub : subjectAfter? subjText = some s)
    (hhref : legacyContentHref href = true) :
    process_boarddoc_meeting "m" (fileDoc subjText (anchorOf href [])) =
      .error "AttributeError" := by
  have hitems := itemsOf_fileDoc subjText s (anchorOf href []) hsub rfl rfl
  have hanch : legacyAnchors (fileDoc subjText (anchorOf href [])) =
      [([orderWrap subjText (anchorOf href []),
         fileDoc subjText (anchorOf href [])], anchorOf href [])] := by
    unfold legacyAnchors
    simp [Html.nodesWithAnc, Html.nodesWithAncList, Html.tagOf,
      Html.getAttr, hhref, fileDoc, docOf, nameDiv, dateDiv, descDiv,
      orderWrap, anchorOf]
  have hstep : legacyStep [] ([orderWrap subjText (anchorOf href []),
      fileDoc subjText (anchorOf href [])], anchorOf href []) =
      .error "AttributeError" :=
    legacyStep_noChild [] _ _ _ s rfl
      (by rw [subject_orderWrap subjText (anchorOf href []) rfl]
          exact hsub) rfl
  have hfiles : filesOf (fileDoc subjText (anchorOf href [])) =
      .error "AttributeError" := by
    unfold filesOf
    rw [show publicFileDivs (fileDoc subjText (anchorOf href [])) =
      ([] : List (List Html × Html)) from rfl, hanch]
    simp only [List.foldlM_nil, List.foldlM_cons, pure_bind, hstep,
      except_bind_ok]
    rfl
  exact process_eval_filesError "m" (fileDoc subjText (anchorOf href []))
    nameDiv dateDiv (descDiv "hello") [s] "AttributeError"
    rfl rfl rfl hitems hfiles

/-- Witness for C10 at a concrete page. -/
theorem claim_C10_witness :
    process_boarddoc_meeting "m"
      (fileDoc "Subject\nItem A\nrest"
        (anchorOf "f/legacy-content/doc.pdf" [])) = .error "AttributeError" :=
  claim_C10 "Subject\nItem A\nrest" "f/legacy-content/doc.pdf" "Item A"
    rfl rfl

end Boarddocs
